import Mathlib

/-!
# Verification of the `ds` concurrent recursive scan engine

Shallow embedding, in Lean 4, of the core of the `ds` disk-usage scanner:

* `src/utils.rs`              — `count_digits`
* `src/file_system/read.rs`   — `read_and_count_lines`, `read_entry_recursive`,
                                `spawn_readers`
* `src/file_system/entry.rs`  — `FsEntry` and its accessors
* `src/stats.rs`              — `ScanStats` and `ScanStats::apply_entry`
* `src/utils/sync.rs`         — the counting `Semaphore`

Machine integers (`u64`, `usize`) are modelled as `Nat` (sizes and counters
only ever grow by small additions; overflow is out of scope for the checked
properties).  File contents are modelled as `List Nat` of byte values;
fallible OS calls are modelled as `Option`-valued inputs.  The thread pool of
`spawn_readers` is modelled as a step relation on an abstract pool state.
-/

/-! ## `count_digits` (src/utils.rs)

```rust
pub fn count_digits(mut n: u64) -> usize {
    if n == 0 { return 1; }
    let mut count = 0;
    while n > 0 { n /= 10; count += 1; }
    count
}
```
-/

/-- The `while n > 0 { n /= 10; count += 1 }` loop of `count_digits`,
returning the number of iterations. -/
def count_digits_go : Nat → Nat
  | 0 => 0
  | n + 1 => count_digits_go ((n + 1) / 10) + 1
decreasing_by exact Nat.div_lt_self (Nat.succ_pos n) (by norm_num)

/-- `count_digits` from `src/utils.rs`. -/
def count_digits (n : Nat) : Nat :=
  if n = 0 then 1 else count_digits_go n

/-- Length of the decimal string representation of `n`, as the older
monolithic iteration computes it with `size.to_string().len()`
(`src/main.rs`): one digit for `0`, otherwise the number of base-10 digits. -/
def decimal_str_len (n : Nat) : Nat :=
  if n = 0 then 1 else (Nat.digits 10 n).length

/-! ## The line counter `read_and_count_lines` (src/file_system/read.rs)

The Rust code reads the file in 128-byte chunks, prepends any undecoded
leftover bytes to every chunk, attempts a UTF-8 decode, and accumulates
`str::lines().count()` of every successfully decoded piece.  We model the
byte-level UTF-8 validation of `str::from_utf8` (including
`Utf8Error::valid_up_to`) and the chunk loop itself.
-/

/-- A UTF-8 continuation byte: `0x80 ..= 0xBF`. -/
def isCont (b : Nat) : Bool := 0x80 ≤ b && b ≤ 0xBF

/-- Second-byte constraint of a three-byte UTF-8 sequence, per first byte
(rules of Rust's `core::str` UTF-8 validation: `E0` requires `A0..=BF`,
`ED` requires `80..=9F` (no surrogates), the rest a plain continuation). -/
def utf8Snd3 (b0 b1 : Nat) : Bool :=
  if b0 = 0xE0 then 0xA0 ≤ b1 && b1 ≤ 0xBF
  else if b0 = 0xED then 0x80 ≤ b1 && b1 ≤ 0x9F
  else isCont b1

/-- Second-byte constraint of a four-byte UTF-8 sequence, per first byte
(`F0` requires `90..=BF`, `F4` requires `80..=8F`, the rest a plain
continuation). -/
def utf8Snd4 (b0 b1 : Nat) : Bool :=
  if b0 = 0xF0 then 0x90 ≤ b1 && b1 ≤ 0xBF
  else if b0 = 0xF4 then 0x80 ≤ b1 && b1 ≤ 0x8F
  else isCont b1

/-- The byte of `bs` at index `i`, or the out-of-range sentinel `0x100` when
`i` is past the end.  Real file bytes are `< 0x100`, so the sentinel encodes
"no byte here" and fails every byte-class test below, exactly as a truncated
UTF-8 sequence fails validation. -/
def byteAt : List Nat → Nat → Nat
  | [], _ => 0x100
  | b :: _, 0 => b
  | _ :: rest, i + 1 => byteAt rest i

/-- Length (1–4) of the complete valid UTF-8 character at the front of `bs`,
or `none` if the leading bytes are not a complete valid character.  These are
the byte-class rules of Rust's `core::str` UTF-8 validation. -/
def utf8CharLen (bs : List Nat) : Option Nat :=
  let b0 := byteAt bs 0
  let b1 := byteAt bs 1
  let b2 := byteAt bs 2
  let b3 := byteAt bs 3
  if b0 < 0x80 then some 1
  else if b0 < 0xC2 then none
  else if b0 ≤ 0xDF then (if isCont b1 then some 2 else none)
  else if b0 ≤ 0xEF then (if utf8Snd3 b0 b1 && isCont b2 then some 3 else none)
  else if b0 ≤ 0xF4 then (if utf8Snd4 b0 b1 && isCont b2 && isCont b3 then some 4 else none)
  else none

/-- Character-by-character validation scan.  The `fuel` argument is only a
termination device (each character consumes at least one byte, so
`utf8ValidUpTo` below supplies fuel that can never run out). -/
def utf8ValidUpToGo : Nat → List Nat → Nat
  | 0, _ => 0
  | fuel + 1, bs =>
    match utf8CharLen bs with
    | some n => n + utf8ValidUpToGo fuel (bs.drop n)
    | none => 0

/-- `Utf8Error::valid_up_to` of Rust's `str::from_utf8`: the length of the
longest prefix made of complete, valid UTF-8 characters. -/
def utf8ValidUpTo (bs : List Nat) : Nat := utf8ValidUpToGo bs.length bs

/-- `str::from_utf8(bs).is_ok()`: the whole byte list is valid UTF-8. -/
def validUtf8 (bs : List Nat) : Bool := utf8ValidUpTo bs == bs.length

/-- `s.lines().count()` of Rust on the byte representation of a decoded
string: the number of `\n` bytes, plus one for a non-empty trailing segment
not ended by `\n`.  (In UTF-8 the byte `0x0A` occurs only as the character
`\n`; the `\r`-stripping of `lines()` does not change the count.) -/
def lines_count (bs : List Nat) : Nat :=
  match bs with
  | [] => 0
  | _ :: _ => bs.count 10 + (if bs.getLast? = some 10 then 0 else 1)

/-- The chunk size of `read_and_count_lines`. -/
def CHUNK_SIZE : Nat := 128

/-- The chunk loop of `read_and_count_lines`.  `remaining` is the part of the
file not yet returned by `reader.read`, `leftover` the undecoded bytes
carried over from the previous chunk, `lines` the running count.  The `fuel`
argument is only a termination device: one unit is spent per loop iteration,
and since every iteration consumes `CHUNK_SIZE` bytes from `remaining`,
`read_and_count_lines` below supplies fuel that can never run out. -/
def count_lines_loop (fuel : Nat) (remaining leftover : List Nat) (lines : Nat) : Nat :=
  match remaining with
  | [] =>
    -- `reader.read` returned 0: the loop breaks, then the trailing
    -- `leftover` check of the source runs.
    if leftover.isEmpty then lines
    else if validUtf8 leftover then lines + lines_count leftover
    else 0
  | _ :: _ =>
    match fuel with
    | 0 => 0
    | fuel + 1 =>
      let chunk := leftover ++ remaining.take CHUNK_SIZE
      let rest := remaining.drop CHUNK_SIZE
      if validUtf8 chunk then
        count_lines_loop fuel rest [] (lines + lines_count chunk)
      else
        let valid_up_to := utf8ValidUpTo chunk
        if valid_up_to = 0 then 0
        else count_lines_loop fuel rest (chunk.drop valid_up_to)
          (lines + lines_count (chunk.take valid_up_to))

/-- `read_and_count_lines` from `src/file_system/read.rs`, on the byte
content of the file (the `Ok` payload; an I/O failure while opening or
reading is an environment event outside the byte-level model).  The fuel
`content.length` dominates the iteration count, since each iteration
consumes 128 bytes of `content`. -/
def read_and_count_lines (content : List Nat) : Nat :=
  count_lines_loop content.length content [] 0

/-- The line count the specification asks for: the number of line
terminators, plus one if the text is non-empty and does not end in a
terminator (standard `lines()`-style semantics applied to the whole file). -/
def spec_line_count (content : List Nat) : Nat := lines_count content


/-! ## The filesystem model and `read_entry_recursive`
(src/file_system/entry.rs, src/file_system/read.rs)

`FsEntry` is the result type of the scan.  `FsNode`/`FsListing` model what
the operating system presents to `read_entry_recursive` for one entry:
the outcome of `entry.metadata()` (`metaErr` when it fails, `other` when the
entry is neither a regular file nor a directory, e.g. a symlink or device
node), a file's byte length and readable content (`none` models an
open/read failure), and a directory's own metadata size together with the
outcome of `fs::read_dir` (`dirErr` when listing fails) and of each
iteration step (`errItem` models an errored `DirEntry` result).  Entry names
are `Option String` (`none` models an `OsString` that does not decode to
UTF-8); error values are modelled as short tags, one per `errors.push` site
of the source. -/

/-- `FsEntry` from `src/file_system/entry.rs`. -/
inductive FsEntry where
  | file (name : Option String) (size : Nat) (lines : Option Nat)
  | dir (name : Option String) (size : Nat) (children : Option (List FsEntry))
  | unknown (name : Option String) (size : Option Nat)

/-- `FsEntry::size` from `src/file_system/entry.rs`. -/
def FsEntry.size : FsEntry → Option Nat
  | .file _ size _ => some size
  | .dir _ size _ => some size
  | .unknown _ size => size

/-- `FsEntry::UNKNOWN_ENTRY`, the display sentinel for undecodable names. -/
def UNKNOWN_ENTRY : String := "[Unknown Entry]"

/-- The raw name of an entry (an `OsString` in the source). -/
def FsEntry.name : FsEntry → Option String
  | .file name _ _ => name
  | .dir name _ _ => name
  | .unknown name _ => name

/-- `FsEntry::name_str`: the display name, or the sentinel when the raw name
does not decode. -/
def FsEntry.name_str (fse : FsEntry) : String := fse.name.getD UNKNOWN_ENTRY

mutual
/-- One filesystem object as the OS presents it to `read_entry_recursive`. -/
inductive FsNode where
  | metaErr (name : Option String)
  | file (name : Option String) (size : Nat) (content : Option (List Nat))
  | dirErr (name : Option String) (size : Nat)
  | dir (name : Option String) (size : Nat) (listing : FsListing)
  | other (name : Option String)

/-- The iterator of `fs::read_dir`: a sequence of `DirEntry` results. -/
inductive FsListing where
  | nil
  | errItem (rest : FsListing)
  | okItem (node : FsNode) (rest : FsListing)
end

mutual
/-- `read_entry_recursive` from `src/file_system/read.rs`, returning the
produced `FsEntry` together with the errors this call pushes to the caller's
error vector, in push order. -/
def read_entry_recursive (count_lines : Bool) : FsNode → FsEntry × List String
  | .metaErr name => (.unknown name none, ["error getting metadata"])
  | .file name size content =>
    if count_lines then
      match content with
      | some bytes => (.file name size (some (read_and_count_lines bytes)), [])
      | none => (.file name size none, ["error counting lines"])
    else (.file name size none, [])
  | .dirErr name size => (.dir name size none, ["error reading dir"])
  | .dir name size listing =>
    let r := read_children count_lines listing
    (.dir name (size + r.1) (some r.2.1), r.2.2)
  | .other name => (.unknown name none, [])

/-- The `for result in it` loop over a directory listing inside
`read_entry_recursive`: accumulates the size added by the children, the
child entries, and the pushed errors, in iteration order. -/
def read_children (count_lines : Bool) : FsListing → Nat × List FsEntry × List String
  | .nil => (0, [], [])
  | .errItem rest =>
    let r := read_children count_lines rest
    (r.1, r.2.1, "error reading dir entry" :: r.2.2)
  | .okItem node rest =>
    let c := read_entry_recursive count_lines node
    let r := read_children count_lines rest
    ((match c.1.size with
      | some sz => sz
      | none => 0) + r.1, c.1 :: r.2.1, c.2 ++ r.2.2)
end

/-- Sum of the determined sizes of a list of entries (entries whose `size`
is `none` are excluded). -/
def sumSizes (cs : List FsEntry) : Nat := (cs.filterMap FsEntry.size).sum

/-- Number of successfully iterated items of a directory listing. -/
def okCount : FsListing → Nat
  | .nil => 0
  | .errItem rest => okCount rest
  | .okItem _ rest => 1 + okCount rest

/-- Number of errored iteration steps of a directory listing. -/
def errItemCount : FsListing → Nat
  | .nil => 0
  | .errItem rest => 1 + errItemCount rest
  | .okItem _ rest => errItemCount rest

/-- Number of failed items of a directory listing: errored iteration steps
plus children whose metadata probe fails. -/
def failCount : FsListing → Nat
  | .nil => 0
  | .errItem rest => 1 + failCount rest
  | .okItem node rest =>
    (match node with
      | .metaErr _ => 1
      | _ => 0) + failCount rest


/-! ## `ScanStats` (src/stats.rs) -/

/-- `ScanStats` from `src/stats.rs` (`#[derive(Default)]`: all fields zero). -/
structure ScanStats where
  total_size : Nat := 0
  total_lines : Nat := 0
  max_size : Nat := 0
  max_size_digits : Nat := 0
  max_name_len : Nat := 0
  dir_count : Nat := 0
  file_count : Nat := 0
  unknown_count : Nat := 0
deriving DecidableEq, Repr

/-- `ScanStats::default()`. -/
def ScanStats.default : ScanStats := {}

/-- `ScanStats::apply_entry` from `src/stats.rs`, as a pure fold step. -/
def ScanStats.apply_entry (s : ScanStats) (fse : FsEntry) : ScanStats :=
  let name_len := fse.name_str.length
  let s1 := if name_len > s.max_name_len then { s with max_name_len := name_len } else s
  let s2 :=
    match fse.size with
    | some size =>
      let t1 := { s1 with total_size := s1.total_size + size }
      let t2 := if size > t1.max_size then { t1 with max_size := size } else t1
      let digits := count_digits size
      if digits > t2.max_size_digits then { t2 with max_size_digits := digits } else t2
    | none => s1
  let s3 :=
    match fse with
    | .file _ _ (some lines) => { s2 with total_lines := s2.total_lines + lines }
    | _ => s2
  match fse with
  | .file _ _ _ => { s3 with file_count := s3.file_count + 1 }
  | .dir _ _ _ => { s3 with dir_count := s3.dir_count + 1 }
  | .unknown _ _ => { s3 with unknown_count := s3.unknown_count + 1 }

/-- The line contribution of an entry to `total_lines`: a file's counted
lines, 0 otherwise. -/
def FsEntry.lines_or_zero : FsEntry → Nat
  | .file _ _ (some lines) => lines
  | _ => 0


/-! ## The bounded worker pool `spawn_readers`
(src/file_system/read.rs, src/utils/sync.rs)

`spawn_readers` dispatches one thread per top-level entry.  When
`max_threads` is `Some n` the dispatcher calls `Semaphore::lock` before each
`thread::spawn` (blocking while the count is at the ceiling, then
incrementing it under the mutex); each worker runs `read_entry_recursive`,
sends one `(FsEntry, errors)` pair, then calls `Semaphore::unlock`
(decrementing the count).  When `max_threads` is `None` no semaphore exists.
The synchronization skeleton is embedded as a step relation on an abstract
pool state, one transition per atomic event:

* `dispatch` — the dispatcher loop acquires a slot (`Semaphore::lock`, a
  no-op when no semaphore exists) and spawns the next worker;
* `finish` — a worker completes its walk, sends its result, and releases
  its slot (`sem.map(|sem| sem.unlock())`, a no-op when no semaphore
  exists);
* `crash` — a worker unwinds (a panic inside `read_entry_recursive`, or the
  `expect` on a failed send).  The source has no `catch_unwind`: unwinding
  skips both the send and the `sem.unlock()` call, so no result is sent and
  the slot count stays where it was.

`pending` counts entries not yet dispatched, `slots` the semaphore count,
`active` the spawned workers that have neither finished nor crashed, `sent`
the results delivered to the channel, `crashed` the panicked workers. -/

/-- Abstract state of `spawn_readers`: dispatcher position, semaphore count,
and worker accounting. -/
structure PoolState where
  pending : Nat
  slots : Nat
  active : Nat
  sent : Nat
  crashed : Nat
deriving DecidableEq, Repr

/-- Guard of `Semaphore::lock`: proceed only while the count is below the
ceiling (`while *count >= self.max_threads { wait }`); no admission control
without a semaphore. -/
def lock_enabled : Option Nat → Nat → Prop
  | some n, c => c < n
  | none, _ => True

/-- Effect of `Semaphore::lock` on the count (`*count += 1`); no-op when no
semaphore exists. -/
def slots_after_lock : Option Nat → Nat → Nat
  | some _, c => c + 1
  | none, c => c

/-- Effect of `Semaphore::unlock` on the count (`*count -= 1`); no-op when
no semaphore exists. -/
def slots_after_unlock : Option Nat → Nat → Nat
  | some _, c => c - 1
  | none, c => c

/-- One atomic event of the pool of `spawn_readers` with concurrency ceiling
`mt` (the `max_threads` argument). -/
inductive PoolStep (mt : Option Nat) : PoolState → PoolState → Prop where
  | dispatch (s : PoolState) (hp : 0 < s.pending) (hg : lock_enabled mt s.slots) :
      PoolStep mt s ⟨s.pending - 1, slots_after_lock mt s.slots, s.active + 1, s.sent, s.crashed⟩
  | finish (s : PoolState) (ha : 0 < s.active) :
      PoolStep mt s ⟨s.pending, slots_after_unlock mt s.slots, s.active - 1, s.sent + 1, s.crashed⟩
  | crash (s : PoolState) (ha : 0 < s.active) :
      PoolStep mt s ⟨s.pending, s.slots, s.active - 1, s.sent, s.crashed + 1⟩

/-- States reachable by a `spawn_readers` run over `entries` top-level
entries: the initial state has everything pending, and any interleaving of
pool events may follow. -/
inductive PoolReach (mt : Option Nat) (entries : Nat) : PoolState → Prop where
  | init : PoolReach mt entries ⟨entries, 0, 0, 0, 0⟩
  | step {s t : PoolState} : PoolReach mt entries s → PoolStep mt s t → PoolReach mt entries t

/-! ## Theorems -/

lemma count_digits_go_eq_digits_len : ∀ n : Nat, count_digits_go n = (Nat.digits 10 n).length := by
  intro n
  induction n using Nat.strong_induction_on with
  | _ n ih =>
    match n with
    | 0 => simp [count_digits_go]
    | m + 1 =>
      rw [count_digits_go, Nat.digits_def' (by norm_num : 1 < 10) (Nat.succ_pos m)]
      simp [ih ((m + 1) / 10) (Nat.div_lt_self (Nat.succ_pos m) (by norm_num))]

/-- **C10** — For every value `n`, `count_digits n` equals the length of the
decimal string representation of `n` (in particular `count_digits 0 = 1`), so
the modular iteration's digit-width computation agrees exactly with the older
monolithic iteration's `size.to_string().len()`. -/
theorem count_digits_eq_decimal_str_len (n : Nat) : count_digits n = decimal_str_len n := by
  unfold count_digits decimal_str_len
  split
  · rfl
  · exact count_digits_go_eq_digits_len n

set_option maxRecDepth 40000 in
/-- **C1** — the claim is false on the code: a 129-byte valid-UTF-8 file of
129 `a` bytes and no newline is one line under the standard `lines()`
semantics the specification requires, but `read_and_count_lines` returns 2,
because it counts the partial line at the end of each 128-byte chunk once
per chunk.  This evaluates the embedded code at the failing input. -/
theorem read_and_count_lines_chunk_straddle_bug :
    read_and_count_lines (List.replicate 129 97) = 2 ∧
      spec_line_count (List.replicate 129 97) = 1 ∧
      validUtf8 (List.replicate 129 97) = true := by
  refine ⟨by decide, by decide, by decide⟩

lemma byteAt_sentinel : ∀ (bs : List Nat) (i : Nat), bs.length ≤ i → byteAt bs i = 0x100
  | [], _, _ => by simp [byteAt]
  | _ :: rest, 0, h => by simp at h
  | _ :: rest, i + 1, h => by
    simpa [byteAt] using byteAt_sentinel rest i (by simpa using h)

lemma byteAt_lt_length (bs : List Nat) (i : Nat) (h : byteAt bs i < 0x100) : i < bs.length := by
  by_contra hc
  rw [byteAt_sentinel bs i (by omega)] at h
  omega

lemma byteAt_append : ∀ (a t : List Nat) (i : Nat), i < a.length → byteAt (a ++ t) i = byteAt a i
  | [], _, i, h => by simp at h
  | b :: l, t, 0, _ => rfl
  | b :: l, t, i + 1, h => by
    simpa [byteAt] using byteAt_append l t i (by simpa using h)

lemma byteAt_take : ∀ (bs : List Nat) (m i : Nat), i < m → byteAt (bs.take m) i = byteAt bs i
  | _, 0, i, h => by omega
  | [], m + 1, i, h => by simp
  | b :: l, m + 1, 0, _ => rfl
  | b :: l, m + 1, i + 1, h => by
    simpa [byteAt] using byteAt_take l m i (by omega)

lemma isCont_lt (b : Nat) (h : isCont b = true) : b < 0x100 := by
  simp [isCont] at h; omega

lemma utf8Snd3_lt (b0 b1 : Nat) (h : utf8Snd3 b0 b1 = true) : b1 < 0x100 := by
  unfold utf8Snd3 at h
  split_ifs at h <;> simp [isCont] at h <;> omega

lemma utf8Snd4_lt (b0 b1 : Nat) (h : utf8Snd4 b0 b1 = true) : b1 < 0x100 := by
  unfold utf8Snd4 at h
  split_ifs at h <;> simp [isCont] at h <;> omega

lemma utf8CharLen_bounds (bs : List Nat) (n : Nat) (h : utf8CharLen bs = some n) :
    1 ≤ n ∧ n ≤ bs.length := by
  simp only [utf8CharLen] at h
  split_ifs at h with c0 c1 c2 cc2 c3 cc3 c4 cc4 <;>
    simp only [Option.some.injEq, reduceCtorEq] at h
  · subst h
    exact ⟨by omega, byteAt_lt_length bs 0 (by omega)⟩
  · subst h
    exact ⟨by omega, byteAt_lt_length bs 1 (isCont_lt _ cc2)⟩
  · subst h
    simp only [Bool.and_eq_true] at cc3
    exact ⟨by omega, byteAt_lt_length bs 2 (isCont_lt _ cc3.2)⟩
  · subst h
    simp only [Bool.and_eq_true] at cc4
    exact ⟨by omega, byteAt_lt_length bs 3 (isCont_lt _ cc4.2)⟩

lemma utf8CharLen_append (a t : List Nat) (n : Nat) (h : utf8CharLen a = some n) :
    utf8CharLen (a ++ t) = some n := by
  simp only [utf8CharLen] at h ⊢
  split_ifs at h with c0 c1 c2 cc2 c3 cc3 c4 cc4 <;>
    simp only [Option.some.injEq, reduceCtorEq] at h
  · rw [byteAt_append a t 0 (byteAt_lt_length a 0 (by omega))]
    simp [c0, h]
  · have e1 := byteAt_append a t 1 (byteAt_lt_length a 1 (isCont_lt _ cc2))
    have e0 := byteAt_append a t 0 (byteAt_lt_length a 0 (by omega))
    rw [e0, e1]
    simp [c0, c1, c2, cc2, h]
  · simp only [Bool.and_eq_true] at cc3
    have e2 := byteAt_append a t 2 (byteAt_lt_length a 2 (isCont_lt _ cc3.2))
    have e1 := byteAt_append a t 1 (byteAt_lt_length a 1 (utf8Snd3_lt _ _ cc3.1))
    have e0 := byteAt_append a t 0 (byteAt_lt_length a 0 (by omega))
    rw [e0, e1, e2]
    simp [c0, c1, c2, c3, cc3.1, cc3.2, h]
  · simp only [Bool.and_eq_true] at cc4
    have e3 := byteAt_append a t 3 (byteAt_lt_length a 3 (isCont_lt _ cc4.2))
    have e2 := byteAt_append a t 2 (byteAt_lt_length a 2 (isCont_lt _ cc4.1.2))
    have e1 := byteAt_append a t 1 (byteAt_lt_length a 1 (utf8Snd4_lt _ _ cc4.1.1))
    have e0 := byteAt_append a t 0 (byteAt_lt_length a 0 (by omega))
    rw [e0, e1, e2, e3]
    simp [c0, c1, c2, c3, c4, cc4.1.1, cc4.1.2, cc4.2, h]

lemma utf8CharLen_take (bs : List Nat) (m n : Nat) (h : utf8CharLen bs = some n) (hm : n ≤ m) :
    utf8CharLen (bs.take m) = some n := by
  simp only [utf8CharLen] at h ⊢
  split_ifs at h with c0 c1 c2 cc2 c3 cc3 c4 cc4 <;>
    simp only [Option.some.injEq, reduceCtorEq] at h
  · rw [byteAt_take bs m 0 (by omega)]
    simp [c0, h]
  · rw [byteAt_take bs m 0 (by omega), byteAt_take bs m 1 (by omega)]
    simp [c0, c1, c2, cc2, h]
  · simp only [Bool.and_eq_true] at cc3
    rw [byteAt_take bs m 0 (by omega), byteAt_take bs m 1 (by omega),
      byteAt_take bs m 2 (by omega)]
    simp [c0, c1, c2, c3, cc3.1, cc3.2, h]
  · simp only [Bool.and_eq_true] at cc4
    rw [byteAt_take bs m 0 (by omega), byteAt_take bs m 1 (by omega),
      byteAt_take bs m 2 (by omega), byteAt_take bs m 3 (by omega)]
    simp [c0, c1, c2, c3, c4, cc4.1.1, cc4.1.2, cc4.2, h]

lemma utf8CharLen_nil : utf8CharLen [] = none := rfl

lemma utf8ValidUpToGo_fuel : ∀ (f1 f2 : Nat) (bs : List Nat),
    bs.length ≤ f1 → bs.length ≤ f2 → utf8ValidUpToGo f1 bs = utf8ValidUpToGo f2 bs := by
  intro f1
  induction f1 with
  | zero =>
    intro f2 bs h1 _
    have : bs = [] := List.eq_nil_of_length_eq_zero (by omega)
    subst this
    cases f2 <;> simp [utf8ValidUpToGo, utf8CharLen_nil]
  | succ f ih =>
    intro f2 bs h1 h2
    cases f2 with
    | zero =>
      have : bs = [] := List.eq_nil_of_length_eq_zero (by omega)
      subst this
      simp [utf8ValidUpToGo, utf8CharLen_nil]
    | succ g =>
      simp only [utf8ValidUpToGo]
      cases hc : utf8CharLen bs with
      | none => rfl
      | some n =>
        have hb := utf8CharLen_bounds bs n hc
        have := ih g (bs.drop n) (by simp [List.length_drop]; omega)
          (by simp [List.length_drop]; omega)
        simp [this]

lemma utf8ValidUpTo_eq (bs : List Nat) :
    utf8ValidUpTo bs =
      match utf8CharLen bs with
      | some n => n + utf8ValidUpTo (bs.drop n)
      | none => 0 := by
  unfold utf8ValidUpTo
  cases bs with
  | nil => simp [utf8ValidUpToGo, utf8CharLen_nil]
  | cons b r =>
    simp only [utf8ValidUpToGo, List.length_cons]
    cases hc : utf8CharLen (b :: r) with
    | none => rfl
    | some n =>
      have hb := utf8CharLen_bounds _ n hc
      simp only [List.length_cons] at hb
      have := utf8ValidUpToGo_fuel (r.length + 1 - 1) ((b :: r).drop n).length ((b :: r).drop n)
        (by simp [List.length_drop] at *; omega) le_rfl
      simpa using congrArg (n + ·) this

lemma utf8ValidUpTo_eq_some (bs : List Nat) (n : Nat) (h : utf8CharLen bs = some n) :
    utf8ValidUpTo bs = n + utf8ValidUpTo (bs.drop n) := by
  rw [utf8ValidUpTo_eq, h]

lemma utf8ValidUpTo_eq_none (bs : List Nat) (h : utf8CharLen bs = none) :
    utf8ValidUpTo bs = 0 := by
  rw [utf8ValidUpTo_eq, h]

lemma utf8ValidUpTo_le (bs : List Nat) : utf8ValidUpTo bs ≤ bs.length := by
  suffices H : ∀ (k : Nat) (l : List Nat), l.length ≤ k → utf8ValidUpTo l ≤ l.length from
    H bs.length bs le_rfl
  intro k
  induction k with
  | zero =>
    intro l h
    have : l = [] := List.eq_nil_of_length_eq_zero (by omega)
    subst this
    simp [utf8ValidUpTo, utf8ValidUpToGo]
  | succ k ih =>
    intro l h
    cases hc : utf8CharLen l with
    | none => simp [utf8ValidUpTo_eq_none l hc]
    | some n =>
      rw [utf8ValidUpTo_eq_some l n hc]
      have hb := utf8CharLen_bounds l n hc
      have hd := ih (l.drop n) (by simp [List.length_drop]; omega)
      simp only [List.length_drop] at hd
      omega

lemma utf8ValidUpTo_append (a b : List Nat) (h : utf8ValidUpTo a = a.length) :
    utf8ValidUpTo (a ++ b) = a.length + utf8ValidUpTo b := by
  suffices H : ∀ (k : Nat) (l : List Nat), l.length ≤ k → utf8ValidUpTo l = l.length →
      utf8ValidUpTo (l ++ b) = l.length + utf8ValidUpTo b from H a.length a le_rfl h
  intro k
  induction k with
  | zero =>
    intro l hl _
    have : l = [] := List.eq_nil_of_length_eq_zero (by omega)
    subst this
    simp
  | succ k ih =>
    intro l hl hv
    cases hc : utf8CharLen l with
    | none =>
      rw [utf8ValidUpTo_eq_none l hc] at hv
      have : l = [] := List.eq_nil_of_length_eq_zero (by omega)
      subst this
      simp
    | some n =>
      rw [utf8ValidUpTo_eq_some l n hc] at hv
      have hb := utf8CharLen_bounds l n hc
      rw [utf8ValidUpTo_eq_some (l ++ b) n (utf8CharLen_append l b n hc),
        List.drop_append_of_le_length hb.2]
      have hrec := ih (l.drop n) (by simp [List.length_drop]; omega)
        (by simp only [List.length_drop]; omega)
      simp only [List.length_drop] at hrec
      omega

lemma utf8ValidUpTo_take (bs : List Nat) :
    utf8ValidUpTo (bs.take (utf8ValidUpTo bs)) = utf8ValidUpTo bs := by
  suffices H : ∀ (k : Nat) (l : List Nat), l.length ≤ k →
      utf8ValidUpTo (l.take (utf8ValidUpTo l)) = utf8ValidUpTo l from H bs.length bs le_rfl
  intro k
  induction k with
  | zero =>
    intro l hl
    have : l = [] := List.eq_nil_of_length_eq_zero (by omega)
    subst this
    simp
  | succ k ih =>
    intro l hl
    cases hc : utf8CharLen l with
    | none =>
      rw [utf8ValidUpTo_eq_none l hc]
      simp [utf8ValidUpTo, utf8ValidUpToGo]
    | some n =>
      have hb := utf8CharLen_bounds l n hc
      rw [utf8ValidUpTo_eq_some l n hc,
        utf8ValidUpTo_eq_some _ n (utf8CharLen_take l _ n hc (by omega)),
        List.drop_take (n + utf8ValidUpTo (l.drop n)) n l]
      have he : n + utf8ValidUpTo (l.drop n) - n = utf8ValidUpTo (l.drop n) := by omega
      rw [he, ih (l.drop n) (by simp [List.length_drop]; omega)]

lemma validUtf8_true_iff (bs : List Nat) : validUtf8 bs = true ↔ utf8ValidUpTo bs = bs.length := by
  simp [validUtf8]

lemma validUtf8_false_iff (bs : List Nat) : validUtf8 bs = false ↔ ¬ utf8ValidUpTo bs = bs.length := by
  simp [validUtf8]

lemma count_lines_loop_invalid :
    ∀ (fuel : Nat) (remaining leftover : List Nat) (lines : Nat),
      validUtf8 (leftover ++ remaining) = false →
      count_lines_loop fuel remaining leftover lines = 0 := by
  have nilcase : ∀ (leftover : List Nat) (lines : Nat),
      validUtf8 (leftover ++ []) = false →
      (if leftover.isEmpty then lines
        else if validUtf8 leftover then lines + lines_count leftover else 0) = 0 := by
    intro leftover lines h
    rw [List.append_nil] at h
    have hne : ¬ leftover.isEmpty = true := by
      intro he
      rw [List.isEmpty_iff.mp he] at h
      simp [validUtf8] at h
      exact h rfl
    rw [if_neg hne, if_neg (by simp [h])]
  intro fuel
  induction fuel with
  | zero =>
    intro remaining leftover lines h
    cases remaining with
    | nil => simpa only [count_lines_loop] using nilcase leftover lines h
    | cons r rr => simp only [count_lines_loop]
  | succ f ih =>
    intro remaining leftover lines h
    cases remaining with
    | nil => simpa only [count_lines_loop] using nilcase leftover lines h
    | cons r rr =>
      simp only [count_lines_loop]
      set remaining := r :: rr with hrem
      set chunk := leftover ++ remaining.take CHUNK_SIZE with hchunk
      set rest := remaining.drop CHUNK_SIZE with hrest
      have hsplit : leftover ++ remaining = chunk ++ rest := by
        rw [hchunk, hrest, List.append_assoc, List.take_append_drop]
      rw [hsplit] at h
      have htot := validUtf8_false_iff _ |>.mp h
      rw [List.length_append] at htot
      by_cases hvc : validUtf8 chunk = true
      · rw [if_pos hvc]
        apply ih rest [] _
        rw [List.nil_append]
        have hce := validUtf8_true_iff _ |>.mp hvc
        have happ := utf8ValidUpTo_append chunk rest hce
        rw [validUtf8_false_iff]
        omega
      · rw [if_neg hvc]
        by_cases hk : utf8ValidUpTo chunk = 0
        · rw [if_pos hk]
        · rw [if_neg hk]
          apply ih rest (chunk.drop (utf8ValidUpTo chunk)) _
          have hkle := utf8ValidUpTo_le chunk
          have htake := utf8ValidUpTo_take chunk
          have hvalham : utf8ValidUpTo (chunk.take (utf8ValidUpTo chunk)) =
              (chunk.take (utf8ValidUpTo chunk)).length := by
            rw [htake, List.length_take]
            omega
          have happ := utf8ValidUpTo_append (chunk.take (utf8ValidUpTo chunk))
            (chunk.drop (utf8ValidUpTo chunk) ++ rest) hvalham
          rw [← List.append_assoc, List.take_append_drop] at happ
          rw [validUtf8_false_iff]
          rw [List.length_take] at happ
          rw [List.length_append, List.length_drop]
          omega

/-- **C2** — counterexample to the claim as stated: the file bytes
`a NUL b newline` contain a NUL byte (`0`), yet `read_and_count_lines`
returns 1, not 0.  NUL is valid UTF-8 and the code has no NUL fast path at
all, so the file is counted as ordinary one-line text. -/
theorem read_and_count_lines_nul_counterexample :
    (0 : Nat) ∈ [97, 0, 98, 10] ∧ read_and_count_lines [97, 0, 98, 10] ≠ 0 := by
  exact ⟨by decide, by decide⟩

/-- **C2** (amended) — for every file whose byte content is not valid UTF-8
(an invalid sequence anywhere), `read_and_count_lines` returns `Ok(0)`,
regardless of how much valid text precedes the offending byte.  A NUL byte,
however, is valid UTF-8 and gets no special binary fast path: a file whose
bytes are valid UTF-8 is counted as text even if it contains NUL. -/
theorem read_and_count_lines_invalid_utf8 (content : List Nat)
    (h : validUtf8 content = false) : read_and_count_lines content = 0 :=
  count_lines_loop_invalid content.length content [] 0 (by simpa using h)

/-- Witness for C2 (amended): the single byte `0xFF` is invalid UTF-8 and the
counter returns 0 on it. -/
theorem read_and_count_lines_invalid_utf8_witness :
    validUtf8 [0xFF] = false ∧ read_and_count_lines [0xFF] = 0 :=
  ⟨by decide, read_and_count_lines_invalid_utf8 [0xFF] (by decide)⟩

theorem read_children_size (cl : Bool) :
    ∀ l : FsListing, (read_children cl l).1 = sumSizes (read_children cl l).2.1
  | .nil => by simp [read_children, sumSizes]
  | .errItem rest => by simpa [read_children] using read_children_size cl rest
  | .okItem node rest => by
    have ih := read_children_size cl rest
    simp only [read_children, sumSizes, List.filterMap_cons] at ih ⊢
    cases h : (read_entry_recursive cl node).1.size <;> simp [h, ih]

theorem read_children_fail (cl : Bool) :
    ∀ l : FsListing, failCount l ≤ (read_children cl l).2.2.length
  | .nil => by simp [read_children, failCount]
  | .errItem rest => by
    have ih := read_children_fail cl rest
    simp only [read_children, failCount, List.length_cons]
    omega
  | .okItem node rest => by
    have ih := read_children_fail cl rest
    simp only [read_children, failCount, List.length_append]
    cases node <;> simp [read_entry_recursive] <;> omega

theorem read_children_ok_length (cl : Bool) :
    ∀ l : FsListing, (read_children cl l).2.1.length = okCount l
  | .nil => by simp [read_children, okCount]
  | .errItem rest => by simpa [read_children, okCount] using read_children_ok_length cl rest
  | .okItem node rest => by
    have ih := read_children_ok_length cl rest
    simp [read_children, okCount, ih]
    omega

theorem read_children_err_items (cl : Bool) :
    ∀ l : FsListing, errItemCount l ≤ (read_children cl l).2.2.length
  | .nil => by simp [read_children, errItemCount]
  | .errItem rest => by
    have ih := read_children_err_items cl rest
    simp only [read_children, errItemCount, List.length_cons]
    omega
  | .okItem node rest => by
    have ih := read_children_err_items cl rest
    simp only [read_children, errItemCount, List.length_append]
    omega

/-- **C3** — counterexample to the claim as stated: a directory whose own
metadata size is 7 containing a single child that is neither a file nor a
directory (e.g. a symlink).  The child is read successfully but has no
determined size, so the claimed equality with the children sum (0) fails —
the produced `Dir` size is 7 — and, contrary to the claim, no error is
recorded for the size-less child: the error list is empty. -/
theorem read_entry_recursive_dir_counterexample :
    read_entry_recursive false (.dir (some "d") 7 (.okItem (.other (some "s")) .nil)) =
      (.dir (some "d") 7 (some [.unknown (some "s") none]), []) ∧
      sumSizes [.unknown (some "s") none] = 0 ∧ (7 : Nat) ≠ 0 :=
  ⟨rfl, rfl, by decide⟩

/-- **C3** (amended) — for every directory node, the returned `Dir` size
equals the directory's own metadata size plus the sum of the determined
sizes of its successfully iterated immediate children; a child with no
determined size is excluded from the sum and no child is double-counted.
Failed sub-entries (metadata errors) and failed iteration steps each have an
error recorded, but a child that is merely neither file nor directory is
excluded from the sum silently, as an `Unknown` without size and without an
error. -/
theorem read_entry_recursive_dir_size (cl : Bool) (name : Option String) (size : Nat)
    (listing : FsListing) :
    read_entry_recursive cl (.dir name size listing) =
      (FsEntry.dir name (size + sumSizes (read_children cl listing).2.1)
        (some (read_children cl listing).2.1), (read_children cl listing).2.2) ∧
      failCount listing ≤ (read_children cl listing).2.2.length := by
  refine ⟨?_, read_children_fail cl listing⟩
  simp [read_entry_recursive, ← read_children_size cl listing]

/-- **C7** — during a directory walk, the failure of an individual child
never stops enumeration of its siblings: every successfully iterated item
yields exactly one child entry (even when reading that child produced
errors), and every errored iteration step records an error while iteration
runs to completion over the whole listing. -/
theorem read_children_never_stops (cl : Bool) (l : FsListing) :
    (read_children cl l).2.1.length = okCount l ∧
      errItemCount l ≤ (read_children cl l).2.2.length :=
  ⟨read_children_ok_length cl l, read_children_err_items cl l⟩

lemma ScanStats.apply_entry_eq (s : ScanStats) (fse : FsEntry) :
    s.apply_entry fse =
      { total_size := s.total_size + (fse.size.getD 0)
        total_lines := s.total_lines + fse.lines_or_zero
        max_size := max s.max_size (fse.size.getD 0)
        max_size_digits :=
          match fse.size with
          | some z => max s.max_size_digits (count_digits z)
          | none => s.max_size_digits
        max_name_len := max s.max_name_len fse.name_str.length
        dir_count := s.dir_count + (match fse with | .dir _ _ _ => 1 | _ => 0)
        file_count := s.file_count + (match fse with | .file _ _ _ => 1 | _ => 0)
        unknown_count := s.unknown_count + (match fse with | .unknown _ _ => 1 | _ => 0) } := by
  obtain ⟨ts, tl, ms, msd, mnl, dc, fc, uc⟩ := s
  cases fse with
  | file name size lines =>
    cases lines <;>
      simp only [ScanStats.apply_entry, FsEntry.size, FsEntry.lines_or_zero, Option.getD_some] <;>
      split_ifs <;> simp_all [ScanStats.mk.injEq] <;> omega
  | dir name size children =>
    simp only [ScanStats.apply_entry, FsEntry.size, FsEntry.lines_or_zero, Option.getD_some]
    split_ifs <;> simp_all [ScanStats.mk.injEq] <;> omega
  | unknown name size =>
    cases size <;>
      simp only [ScanStats.apply_entry, FsEntry.size, FsEntry.lines_or_zero, Option.getD_some,
        Option.getD_none] <;>
      split_ifs <;> simp_all [ScanStats.mk.injEq] <;> omega

lemma ScanStats.apply_entry_comm (s : ScanStats) (a b : FsEntry) :
    (s.apply_entry a).apply_entry b = (s.apply_entry b).apply_entry a := by
  simp only [ScanStats.apply_entry_eq]
  cases ha : a.size <;> cases hb : b.size <;>
    simp [ha, hb, ScanStats.mk.injEq] <;> omega

lemma foldl_apply_entry_perm {l1 l2 : List FsEntry} (p : l1.Perm l2) :
    ∀ s : ScanStats, l1.foldl ScanStats.apply_entry s = l2.foldl ScanStats.apply_entry s := by
  induction p with
  | nil => intro s; rfl
  | cons x _ ih => intro s; simp only [List.foldl_cons]; exact ih _
  | swap x y l => intro s; simp only [List.foldl_cons, ScanStats.apply_entry_comm]
  | trans _ _ ih1 ih2 => intro s; rw [ih1, ih2]

/-- **C8** — `ScanStats::apply_entry` is order-independent: folding any two
permutations of a list of completed entries from the default (all-zero)
`ScanStats` yields identical statistics — every field (`total_size`,
`total_lines`, `max_size`, `max_size_digits`, `max_name_len`, `dir_count`,
`file_count`, `unknown_count`) agrees, since the equality is of whole
`ScanStats` values. -/
theorem scan_stats_fold_order_independent (l1 l2 : List FsEntry) (h : l1.Perm l2) :
    l1.foldl ScanStats.apply_entry ScanStats.default =
      l2.foldl ScanStats.apply_entry ScanStats.default :=
  foldl_apply_entry_perm h _

/-- Witness for C8 at two concrete two-entry folds. -/
theorem scan_stats_fold_order_independent_witness :
    [FsEntry.file (some "a") 3 (some 2), FsEntry.unknown none none].foldl
        ScanStats.apply_entry ScanStats.default =
      [FsEntry.unknown none none, FsEntry.file (some "a") 3 (some 2)].foldl
        ScanStats.apply_entry ScanStats.default :=
  scan_stats_fold_order_independent _ _
    (List.Perm.swap (FsEntry.unknown none none) (FsEntry.file (some "a") 3 (some 2)) [])

/-- **C9** — for every entry whose size is undetermined (`size` is `none`,
i.e. an `Unknown` entry with no size), `apply_entry` leaves `total_size`
unchanged (the size counts as 0 in the running sum) and leaves `max_size`
and `max_size_digits` untouched — the sentinel never enters the max
comparisons — while still incrementing the per-type count (`unknown_count`,
the only type with undetermined size) and updating `max_name_len`. -/
theorem apply_entry_size_none (s : ScanStats) (fse : FsEntry) (h : fse.size = none) :
    s.apply_entry fse =
      { s with max_name_len := max s.max_name_len fse.name_str.length
               unknown_count := s.unknown_count + 1 } := by
  obtain ⟨ts, tl, ms, msd, mnl, dc, fc, uc⟩ := s
  cases fse with
  | file name size lines => simp [FsEntry.size] at h
  | dir name size children => simp [FsEntry.size] at h
  | unknown name size =>
    cases size with
    | some sz => simp [FsEntry.size] at h
    | none =>
      simp [ScanStats.apply_entry_eq, FsEntry.lines_or_zero, FsEntry.size, ScanStats.mk.injEq]

/-- Witness for C9 at a concrete entry with undetermined size. -/
theorem apply_entry_size_none_witness :
    ScanStats.apply_entry ⟨5, 2, 7, 1, 3, 1, 1, 0⟩ (FsEntry.unknown (some "xy") none) =
      ⟨5, 2, 7, 1, 3, 1, 1, 1⟩ := by
  rw [apply_entry_size_none ⟨5, 2, 7, 1, 3, 1, 1, 0⟩ (FsEntry.unknown (some "xy") none) rfl]
  decide

lemma pool_slots_invariant (n entries : Nat) :
    ∀ s : PoolState, PoolReach (some n) entries s → s.active ≤ s.slots ∧ s.slots ≤ n := by
  intro s h
  induction h with
  | init => exact ⟨le_refl 0, Nat.zero_le n⟩
  | step _ hstep ih =>
    cases hstep with
    | dispatch hp hg =>
      simp only [lock_enabled] at hg
      simp only [slots_after_lock]
      omega
    | finish ha =>
      simp only [slots_after_unlock]
      omega
    | crash ha => simpa using ⟨by omega, ih.2⟩

lemma pool_conservation (mt : Option Nat) (entries : Nat) :
    ∀ s : PoolState, PoolReach mt entries s →
      s.sent + s.active + s.pending + s.crashed = entries := by
  intro s h
  induction h with
  | init => simp
  | step _ hstep ih =>
    cases hstep with
    | dispatch hp hg => simp only []; omega
    | finish ha => simp only []; omega
    | crash ha => simp only []; omega

lemma pool_reach_none : ∀ (a p : Nat), PoolReach none (p + a) ⟨p, 0, a, 0, 0⟩ := by
  intro a
  induction a with
  | zero => intro p; exact PoolReach.init
  | succ a ih =>
    intro p
    have h := ih (p + 1)
    have : p + 1 + a = p + (a + 1) := by omega
    rw [this] at h
    exact PoolReach.step h (PoolStep.dispatch ⟨p + 1, 0, a, 0, 0⟩ (Nat.succ_pos p) trivial)

/-- **C4** — with `max_threads = Some n`, at no reachable instant do more
than `n` workers run concurrently (the semaphore is acquired before each
spawn and released when the worker finishes), and with `max_threads = None`
no admission control is applied: the run in which every top-level entry is
dispatched before any finishes is possible, with concurrency equal to the
number of top-level entries. -/
theorem spawn_readers_bounded_concurrency :
    (∀ (n entries : Nat) (s : PoolState), PoolReach (some n) entries s → s.active ≤ n) ∧
      (∀ entries : Nat, ∃ s : PoolState,
        PoolReach none entries s ∧ s.active = entries ∧ s.pending = 0) := by
  constructor
  · intro n entries s h
    have := pool_slots_invariant n entries s h
    omega
  · intro entries
    exact ⟨⟨0, 0, entries, 0, 0⟩, by simpa using pool_reach_none entries 0, rfl, rfl⟩

/-- Witness for C4: a concrete one-dispatch run under ceiling 1, and the full-concurrency run for two entries without a ceiling. -/
theorem spawn_readers_bounded_concurrency_witness :
    (PoolState.mk 0 1 1 0 0).active ≤ 1 ∧
      (∃ s : PoolState, PoolReach none 2 s ∧ s.active = 2 ∧ s.pending = 0) :=
  ⟨spawn_readers_bounded_concurrency.1 1 1 ⟨0, 1, 1, 0, 0⟩
      (PoolReach.step PoolReach.init
        (PoolStep.dispatch ⟨1, 0, 0, 0, 0⟩ (by decide) (Nat.zero_lt_one))),
    spawn_readers_bounded_concurrency.2 2⟩

/-- **C5** — completeness: in every crash-free complete run (all entries
dispatched, all workers finished), the consumer has received exactly one
`(FsEntry, errors)` result per dispatched entry: the number of results
equals the number of top-level entries.  Internal recoverable errors do not
affect this: `read_entry_recursive` is total and each worker sends exactly
one pair, the errors travelling inside that entry's own pair. -/
theorem spawn_readers_complete (mt : Option Nat) (entries : Nat) (s : PoolState)
    (h : PoolReach mt entries s) (hcrash : s.crashed = 0) (hpend : s.pending = 0)
    (hact : s.active = 0) : s.sent = entries := by
  have := pool_conservation mt entries s h
  omega

/-- Witness for C5: a complete one-entry run delivers exactly one result. -/
theorem spawn_readers_complete_witness : (PoolState.mk 0 0 0 1 0).sent = 1 :=
  spawn_readers_complete none 1 ⟨0, 0, 0, 1, 0⟩
    (PoolReach.step
      (PoolReach.step PoolReach.init (PoolStep.dispatch ⟨1, 0, 0, 0, 0⟩ (by decide) trivial))
      (PoolStep.finish ⟨0, 0, 1, 0, 0⟩ (by decide)))
    rfl rfl rfl

/-- **C6** — the claim is false on the code: there is no `catch_unwind` at
the pool boundary, so a panicking worker is not converted into an `Unknown`
placeholder with a synthetic error, and its admission slot is never released
(`sem.unlock()` sits after `tx.send(..).expect(..)` in the worker closure
and is skipped on unwind).  Concretely, with `max_threads = Some 1` and two
top-level entries, after the first worker is dispatched and crashes the pool
reaches a state where one entry is still pending and no transition is
enabled: the dispatcher blocks forever inside `Semaphore::lock` — the
admission gate deadlocks and the pending entry is silently dropped, with
nothing sent and no error recorded. -/
theorem spawn_readers_crash_deadlock :
    ∃ s : PoolState, PoolReach (some 1) 2 s ∧ 0 < s.pending ∧
      ∀ t : PoolState, ¬ PoolStep (some 1) s t := by
  refine ⟨⟨1, 1, 0, 0, 1⟩, ?_, by decide, ?_⟩
  · exact PoolReach.step
      (PoolReach.step PoolReach.init
        (PoolStep.dispatch ⟨2, 0, 0, 0, 0⟩ (by decide) (Nat.zero_lt_one)))
      (PoolStep.crash ⟨1, 1, 1, 0, 0⟩ (by decide))
  · intro t h
    cases h with
    | dispatch hp hg => exact Nat.lt_irrefl 1 hg
    | finish ha => exact Nat.lt_irrefl 0 ha
    | crash ha => exact Nat.lt_irrefl 0 ha
